import Mathlib

/-!
# Backup Coverage Audit Engine — verification of the backup-report scripts

Shallow embedding of the backup-audit logic of this repository
(`src/backup-report.py`, `src/backup_report.py`, `src/backup_new.py`):
tag-exclusion filtering, per-kind backup discovery, recency cutoff,
top-5 selection, coverage classification and section aggregation,
together with theorems settling the specification claims C1–C10.

Python strings are modelled as Lean `String`s (`str.lower` over ASCII,
substring containment via `in`), Python's stable `sorted(key=…, reverse=True)`
as a stable descending insertion sort, `datetime` instants as microsecond
counts on the proleptic Gregorian timeline, and fallible AWS calls as
`Except String` values.
-/

namespace AuditAutomation

/-! ## Python string primitives: `str.lower` and the `in` operator -/

/-- ASCII lower-casing of one character (model of `str.lower` on the
ASCII alphabet, which covers every token and label in the scripts). -/
def lowerChar (c : Char) : Char :=
  if 65 ≤ c.val ∧ c.val ≤ 90 then Char.ofNat (c.toNat + 32) else c

/-- `s.lower()` for ASCII strings. -/
def lowerStr (s : String) : String := String.mk (s.data.map lowerChar)

/-- Does `hay` start with `needle`? -/
def leadEq : List Char → List Char → Bool
  | [], _ => true
  | _ :: _, [] => false
  | n :: ns, h :: hs => n == h && leadEq ns hs

/-- Contiguous-substring test on character lists. -/
def hasSubL (needle : List Char) : List Char → Bool
  | [] => leadEq needle []
  | h :: t => leadEq needle (h :: t) || hasSubL needle t

/-- Python's `needle in hay` on strings. -/
def pyIn (needle hay : String) : Bool := hasSubL needle.data hay.data

/-- `tok in str(cell).lower()` — the test applied to one table cell. -/
def cellHasTok (tok cell : String) : Bool := pyIn tok (lowerStr cell)

/-- Case-insensitive containment as the specification phrases it:
the token occurs as a substring when both sides are lower-cased. -/
def ciContains (s tok : String) : Bool := pyIn (lowerStr tok) (lowerStr s)

/-! ## Python's `sorted(key=…, reverse=True)[:5]`

`sorted` is a stable sort; with `reverse=True` it is the stable descending
sort by the key: strictly larger keys first, equal keys in original order.
A stable insertion sort has exactly that output. -/

/-- Insert `x` (an element arriving *before* everything in `s`) into the
descending-sorted list `s`: `x` goes in front of the first element whose
key is `≤` the key of `x`, so an earlier element wins ties. -/
def insDesc {α β : Type} (le : β → β → Bool) (k : α → β) (x : α) :
    List α → List α
  | [] => [x]
  | y :: ys => if le (k y) (k x) then x :: y :: ys else y :: insDesc le k x ys

/-- Stable descending sort by key `k` under the boolean order `le`. -/
def sortDesc {α β : Type} (le : β → β → Bool) (k : α → β) : List α → List α
  | [] => []
  | x :: xs => insDesc le k x (sortDesc le k xs)

/-- `sorted(l, key=k, reverse=True)[:5]` — the top-N selector with N = 5. -/
def top5 {α β : Type} (le : β → β → Bool) (k : α → β) (l : List α) : List α :=
  (sortDesc le k l).take 5

/-- Boolean `≤` on `Nat`, the key order for timestamp-keyed sorts. -/
def natLeB (a b : Nat) : Bool := decide (a ≤ b)

/-- Lexicographic boolean `≤` on character lists by code point —
Python's string comparison. -/
def clLe : List Char → List Char → Bool
  | [], _ => true
  | _ :: _, [] => false
  | a :: as, b :: bs =>
    if a.toNat < b.toNat then true
    else if b.toNat < a.toNat then false else clLe as bs

/-- Python's `s1 <= s2` on strings (code-point lexicographic). -/
def strLeB (s t : String) : Bool := clLe s.data t.data

theorem length_insDesc {α β : Type} (le : β → β → Bool) (k : α → β) (x : α)
    (l : List α) : (insDesc le k x l).length = l.length + 1 := by
  induction l with
  | nil => rfl
  | cons y ys ih =>
    simp only [insDesc]
    split
    · simp
    · simp [ih]

theorem length_sortDesc {α β : Type} (le : β → β → Bool) (k : α → β)
    (l : List α) : (sortDesc le k l).length = l.length := by
  induction l with
  | nil => rfl
  | cons x xs ih => simp [sortDesc, length_insDesc, ih]

theorem mem_insDesc {α β : Type} {le : β → β → Bool} {k : α → β} {x z : α}
    {l : List α} : z ∈ insDesc le k x l ↔ z = x ∨ z ∈ l := by
  induction l with
  | nil => simp [insDesc]
  | cons y ys ih =>
    simp only [insDesc]
    split
    · simp
    · simp only [List.mem_cons, ih]
      tauto

theorem mem_sortDesc {α β : Type} {le : β → β → Bool} {k : α → β} {z : α}
    {l : List α} : z ∈ sortDesc le k l ↔ z ∈ l := by
  induction l with
  | nil => simp [sortDesc]
  | cons x xs ih => simp [sortDesc, mem_insDesc, ih]

theorem pairwise_insDesc {α β : Type} {le : β → β → Bool} {k : α → β}
    (htot : ∀ a b : β, le a b = true ∨ le b a = true)
    (htr : ∀ a b c : β, le a b = true → le b c = true → le a c = true)
    {x : α} {l : List α}
    (h : List.Pairwise (fun a b => le (k b) (k a) = true) l) :
    List.Pairwise (fun a b => le (k b) (k a) = true) (insDesc le k x l) := by
  induction l with
  | nil => simp [insDesc]
  | cons y ys ih =>
    rw [List.pairwise_cons] at h
    obtain ⟨hy, hys⟩ := h
    simp only [insDesc]
    split
    · rename_i hle
      refine List.Pairwise.cons ?_ (List.Pairwise.cons hy hys)
      intro z hz
      rcases List.mem_cons.mp hz with hz | hz
      · subst hz; exact hle
      · exact htr _ _ _ (hy z hz) hle
    · rename_i hle
      refine List.Pairwise.cons ?_ (ih hys)
      intro z hz
      rcases mem_insDesc.mp hz with hz | hz
      · rcases htot (k x) (k y) with h1 | h1
        · rw [hz]; exact h1
        · exact absurd h1 hle
      · exact hy z hz

theorem pairwise_sortDesc {α β : Type} {le : β → β → Bool} {k : α → β}
    (htot : ∀ a b : β, le a b = true ∨ le b a = true)
    (htr : ∀ a b c : β, le a b = true → le b c = true → le a c = true)
    (l : List α) :
    List.Pairwise (fun a b => le (k b) (k a) = true) (sortDesc le k l) := by
  induction l with
  | nil => simp [sortDesc]
  | cons x xs ih => exact pairwise_insDesc htot htr ih

theorem filter_insDesc {α β : Type} [DecidableEq β] {le : β → β → Bool}
    {k : α → β} (hrefl : ∀ a : β, le a a = true) (x : α) (l : List α)
    (v : β) :
    (insDesc le k x l).filter (fun z => decide (k z = v)) =
      if k x = v then x :: l.filter (fun z => decide (k z = v))
      else l.filter (fun z => decide (k z = v)) := by
  induction l with
  | nil =>
    simp only [insDesc, List.filter]
    split <;> simp_all
  | cons y ys ih =>
    simp only [insDesc]
    split
    · rename_i hle
      by_cases hx : k x = v <;> by_cases hy : k y = v <;>
        simp [List.filter, hx, hy]
    · rename_i hle
      by_cases hx : k x = v <;> by_cases hy : k y = v
      · exfalso
        apply hle
        rw [hx, hy]
        exact hrefl v
      · simp [List.filter, hx, hy, ih]
      · simp [List.filter, hx, hy, ih]
      · simp [List.filter, hx, hy, ih]

/-- Stability of the descending sort: for every key value `v`, the sublist
of elements with key `v` is exactly the same sublist, in the same order,
as in the input. -/
theorem filter_sortDesc {α β : Type} [DecidableEq β] {le : β → β → Bool}
    {k : α → β} (hrefl : ∀ a : β, le a a = true) (l : List α) (v : β) :
    (sortDesc le k l).filter (fun z => decide (k z = v)) =
      l.filter (fun z => decide (k z = v)) := by
  induction l with
  | nil => rfl
  | cons x xs ih =>
    simp only [sortDesc, filter_insDesc hrefl]
    by_cases hx : k x = v <;> simp [List.filter, hx, ih]

theorem insDesc_congr {α β γ : Type} {le1 : β → β → Bool}
    {le2 : γ → γ → Bool} {k1 : α → β} {k2 : α → γ} {x : α} {l : List α}
    (h : ∀ y ∈ l, le1 (k1 y) (k1 x) = le2 (k2 y) (k2 x)) :
    insDesc le1 k1 x l = insDesc le2 k2 x l := by
  induction l with
  | nil => rfl
  | cons y ys ih =>
    have hy := h y (List.mem_cons_self y ys)
    simp only [insDesc, hy]
    split
    · rfl
    · rw [ih (fun z hz => h z (List.mem_cons_of_mem y hz))]

/-- Two keyed boolean orders that agree on all pairs drawn from `l`
produce the same stable descending sort of `l`. -/
theorem sortDesc_congr {α β γ : Type} {le1 : β → β → Bool}
    {le2 : γ → γ → Bool} {k1 : α → β} {k2 : α → γ} {l : List α}
    (h : ∀ a ∈ l, ∀ b ∈ l, le1 (k1 a) (k1 b) = le2 (k2 a) (k2 b)) :
    sortDesc le1 k1 l = sortDesc le2 k2 l := by
  induction l with
  | nil => rfl
  | cons x xs ih =>
    simp only [sortDesc]
    rw [ih (fun a ha b hb =>
      h a (List.mem_cons_of_mem x ha) b (List.mem_cons_of_mem x hb))]
    exact insDesc_congr (fun y hy =>
      h y (List.mem_cons_of_mem x (mem_sortDesc.mp hy)) x
        (List.mem_cons_self x xs))

theorem natLeB_refl (a : Nat) : natLeB a a = true := by simp [natLeB]

theorem natLeB_total (a b : Nat) : natLeB a b = true ∨ natLeB b a = true := by
  simp [natLeB]; omega

theorem natLeB_trans (a b c : Nat) (h1 : natLeB a b = true)
    (h2 : natLeB b c = true) : natLeB a c = true := by
  simp [natLeB] at *; omega

theorem clLe_refl (a : List Char) : clLe a a = true := by
  induction a with
  | nil => rfl
  | cons c cs ih => simp [clLe, ih]

theorem clLe_total (a b : List Char) : clLe a b = true ∨ clLe b a = true := by
  induction a generalizing b with
  | nil => left; rfl
  | cons c cs ih =>
    cases b with
    | nil => right; rfl
    | cons d ds =>
      simp only [clLe]
      rcases Nat.lt_trichotomy c.toNat d.toNat with h | h | h
      · left; simp [h]
      · have hcd : ¬ c.toNat < d.toNat := by omega
        have hdc : ¬ d.toNat < c.toNat := by omega
        simpa [hcd, hdc] using ih ds
      · right; simp [h]

theorem clLe_trans (a b c : List Char) (h1 : clLe a b = true)
    (h2 : clLe b c = true) : clLe a c = true := by
  induction a generalizing b c with
  | nil => rfl
  | cons x xs ih =>
    cases b with
    | nil => simp [clLe] at h1
    | cons y ys =>
      cases c with
      | nil => simp [clLe] at h2
      | cons z zs =>
        simp only [clLe] at h1 h2 ⊢
        by_cases hxy : x.toNat < y.toNat <;>
          by_cases hyx : y.toNat < x.toNat <;>
          by_cases hyz : y.toNat < z.toNat <;>
          by_cases hzy : z.toNat < y.toNat <;>
          simp only [hxy, hyx, hyz, hzy, if_true, if_false] at h1 h2 <;>
          first
          | omega
          | (have hxz : ¬ x.toNat < z.toNat := by omega
             have hzx : ¬ z.toNat < x.toNat := by omega
             simp only [hxz, hzx, if_false]
             exact ih ys zs h1 h2)
          | (have hxz : x.toNat < z.toNat := by omega
             simp [hxz])
          | simp at h1
          | simp at h2

theorem strLeB_refl (s : String) : strLeB s s = true := clLe_refl s.data

theorem strLeB_total (s t : String) :
    strLeB s t = true ∨ strLeB t s = true := clLe_total s.data t.data

theorem strLeB_trans (s t u : String) (h1 : strLeB s t = true)
    (h2 : strLeB t u = true) : strLeB s u = true :=
  clLe_trans s.data t.data u.data h1 h2

/-! ## Timestamps

The scripts compare `datetime` values (RDS `SnapshotCreateTime`, EFS
`CreationDate`, the EC2 recency cutoff) and parse AMI creation dates with
`datetime.strptime(s, "%Y-%m-%dT%H:%M:%S.%fZ")`.  We model an instant as
its microsecond count on the proleptic Gregorian timeline (day 0 =
0000-03-01), so that `datetime` comparison is `Nat` comparison and
`timedelta` subtraction is `Nat` subtraction. -/

/-- Gregorian leap-year rule (as `datetime` validates it). -/
def leapYear (y : Nat) : Prop := y % 4 = 0 ∧ (¬ y % 100 = 0 ∨ y % 400 = 0)

instance (y : Nat) : Decidable (leapYear y) := by
  unfold leapYear; infer_instance

/-- Length of a month, leap-aware (the range `datetime` accepts for the day). -/
def daysInMonth (y mo : Nat) : Nat :=
  if mo = 2 then (if leapYear y then 29 else 28)
  else if mo = 4 ∨ mo = 6 ∨ mo = 9 ∨ mo = 11 then 30 else 31

/-- Days from 0000-03-01 to the 1st of March of March-based year `ys`. -/
def yearStart (ys : Nat) : Nat := 365 * ys + ys / 4 - ys / 100 + ys / 400

/-- Day-of-March-based-year of the 1st of month `mo` (March = 0). -/
def monthDoy (mo : Nat) : Nat := (153 * (if 3 ≤ mo then mo - 3 else mo + 9) + 2) / 5

/-- Days from 0000-03-01 to the civil date `y-mo-d`. -/
def daysFromCivil (y mo d : Nat) : Nat :=
  yearStart (if mo ≤ 2 then y - 1 else y) + monthDoy mo + (d - 1)

/-- Inverse of `daysFromCivil`, used only to render timestamps. -/
def civilFromDays (z : Nat) : Nat × Nat × Nat :=
  let era := z / 146097
  let doe := z % 146097
  let yoe := (doe - doe / 1460 + doe / 36524 - doe / 146096) / 365
  let y := yoe + era * 400
  let doy := doe - (365 * yoe + yoe / 4 - yoe / 100)
  let mp := (5 * doy + 2) / 153
  let d := doy - (153 * mp + 2) / 5 + 1
  let m := if mp < 10 then mp + 3 else mp - 9
  (if m ≤ 2 then y + 1 else y, m, d)

def microsPerDay : Nat := 86400000000

/-- `timedelta(weeks=6)` in microseconds: 42 days of 24 hours. -/
def sixWeeksMicros : Nat := 42 * 24 * 60 * 60 * 1000000

/-- The fields captured by `strptime(s, "%Y-%m-%dT%H:%M:%S.%fZ")`. -/
structure DF where
  y : Nat
  mo : Nat
  d : Nat
  h : Nat
  mi : Nat
  s : Nat
  us : Nat
deriving DecidableEq

/-- The range checks `datetime(…)` itself performs (`MINYEAR = 1`,
`MAXYEAR = 9999`, day within the month, time fields in range). -/
def dfValid (f : DF) : Bool :=
  decide (1 ≤ f.y ∧ f.y ≤ 9999 ∧ 1 ≤ f.mo ∧ f.mo ≤ 12 ∧ 1 ≤ f.d ∧
    f.d ≤ daysInMonth f.y f.mo ∧ f.h ≤ 23 ∧ f.mi ≤ 59 ∧ f.s ≤ 59 ∧
    f.us ≤ 999999)

/-- Microsecond count of a parsed instant. -/
def toMicros (f : DF) : Nat :=
  daysFromCivil f.y f.mo f.d * microsPerDay
    + f.h * 3600000000 + f.mi * 60000000 + f.s * 1000000 + f.us

def isDigitC (c : Char) : Bool := 48 ≤ c.toNat && c.toNat ≤ 57

def digToNat (c : Char) : Nat := c.toNat - 48

/-- The digit character for `n ≤ 9`. -/
def dChar (n : Nat) : Char := Char.ofNat (48 + n)

/-- Read exactly `n` decimal digits, accumulating onto `acc`. -/
def readDigits : Nat → Nat → List Char → Option (Nat × List Char)
  | 0, acc, cs => some (acc, cs)
  | _ + 1, _, [] => none
  | n + 1, acc, c :: cs =>
    if isDigitC c then readDigits n (acc * 10 + digToNat c) cs else none

/-- Consume one expected literal character. -/
def expectC (c : Char) : List Char → Option (List Char)
  | [] => none
  | d :: ds => if d == c then some ds else none

/-- Take up to `n` leading digits. -/
def takeDigits : Nat → List Char → List Char × List Char
  | 0, cs => ([], cs)
  | _ + 1, [] => ([], [])
  | n + 1, c :: cs =>
    if isDigitC c then
      let p := takeDigits n cs
      (c :: p.1, p.2)
    else ([], c :: cs)

/-- Numeric value of a digit string (most significant first). -/
def digitsVal (ds : List Char) : Nat :=
  ds.foldl (fun a c => a * 10 + digToNat c) 0

/-- `%fZ` at the end of the format: one to six fraction digits, scaled to
microseconds (`strptime` right-pads to six digits), then a literal `Z`
and end of input. -/
def parseFracZ (cs : List Char) : Option Nat :=
  let p := takeDigits 6 cs
  if p.1.length = 0 then none
  else
    match p.2 with
    | ['Z'] => some (digitsVal p.1 * 10 ^ (6 - p.1.length))
    | _ => none

/-- `strptime` over the character list: four year digits, two digits for
each other field, the literal separators, the fraction, then the range
validation `datetime` performs. -/
def parseDFL (cs : List Char) : Option DF :=
  match readDigits 4 0 cs with
  | none => none
  | some (y, r1) =>
    match expectC '-' r1 with
    | none => none
    | some r2 =>
      match readDigits 2 0 r2 with
      | none => none
      | some (mo, r3) =>
        match expectC '-' r3 with
        | none => none
        | some r4 =>
          match readDigits 2 0 r4 with
          | none => none
          | some (d, r5) =>
            match expectC 'T' r5 with
            | none => none
            | some r6 =>
              match readDigits 2 0 r6 with
              | none => none
              | some (h, r7) =>
                match expectC ':' r7 with
                | none => none
                | some r8 =>
                  match readDigits 2 0 r8 with
                  | none => none
                  | some (mi, r9) =>
                    match expectC ':' r9 with
                    | none => none
                    | some r10 =>
                      match readDigits 2 0 r10 with
                      | none => none
                      | some (s, r11) =>
                        match expectC '.' r11 with
                        | none => none
                        | some r12 =>
                          match parseFracZ r12 with
                          | none => none
                          | some us =>
                            if dfValid ⟨y, mo, d, h, mi, s, us⟩ then
                              some ⟨y, mo, d, h, mi, s, us⟩
                            else none

/-- `datetime.strptime(t, "%Y-%m-%dT%H:%M:%S.%fZ")`, for the zero-padded
ISO form the provider emits (four-digit year, two-digit date and time
fields), including the range validation `datetime` performs. -/
def parseDF (t : String) : Option DF := parseDFL t.data

/-- The parsed creation instant of an artifact, in microseconds. -/
def parseTs (t : String) : Option Nat := (parseDF t).map toMicros

/-- Zero-padded `w`-digit decimal rendering. -/
def padC : Nat → Nat → List Char
  | 0, _ => []
  | w + 1, n => dChar (n / 10 ^ w) :: padC w (n % 10 ^ w)

/-- `dt.strftime("%Y-%m-%d %H:%M:%S UTC")`. -/
def fmtUTC (y mo d h mi s : Nat) : String :=
  String.mk (padC 4 y ++ '-' :: padC 2 mo ++ '-' :: padC 2 d ++
    ' ' :: padC 2 h ++ ':' :: padC 2 mi ++ ':' :: padC 2 s ++ " UTC".data)

/-- `format_time` on a string input: parse with the fixed format and
re-render, falling back to the raw value when parsing fails. -/
def formatTimeStr (t : String) : String :=
  match parseDF t with
  | some f => fmtUTC f.y f.mo f.d f.h f.mi f.s
  | none => t

/-- `format_time` on a `datetime` input (a microsecond instant). -/
def formatTimeMicros (t : Nat) : String :=
  let c := civilFromDays (t / microsPerDay)
  let rem := t % microsPerDay
  fmtUTC c.1 c.2.1 c.2.2 (rem / 3600000000) (rem % 3600000000 / 60000000)
    (rem % 60000000 / 1000000)

/-- The canonical fixed-format creation-date string with a `w`-digit
fractional-second field (the shape named by the refinement claim). -/
def renderCanon (w : Nat) (f : DF) : String :=
  String.mk (padC 4 f.y ++ ('-' :: (padC 2 f.mo ++ ('-' :: (padC 2 f.d ++
    ('T' :: (padC 2 f.h ++ (':' :: (padC 2 f.mi ++ (':' :: (padC 2 f.s ++
    ('.' :: (padC w (f.us / 10 ^ (6 - w)) ++ ['Z'])))))))))))))

theorem daysFromCivil_unix_epoch : daysFromCivil 1970 1 1 = 719468 := by decide

theorem parseTs_epoch :
    parseTs "1970-01-01T00:00:00.000000Z" = some (719468 * microsPerDay) := by
  decide

theorem formatTimeMicros_epoch :
    formatTimeMicros (719468 * microsPerDay) = "1970-01-01 00:00:00 UTC" := by
  decide

theorem formatTimeStr_fallback :
    formatTimeStr "not a date" = "not a date" := by decide

/-! ## Shared table-row machinery -/

/-- A table row handed to the renderer: a list of cell strings. -/
abbrev Row := List String

/-- `BorderPDF.table` row highlighting (identical in all three scripts):
`any("no backup" in str(cell).lower() for cell in row)`. -/
def highlightRow (row : Row) : Bool :=
  row.any (fun cell => cellHasTok "no backup" cell)

/-- `tok in str(row[1]).lower()` — the per-row test of the banner-collapse
conditions in `generate_pdf`. -/
def rowTokAt1 (tok : String) (row : Row) : Bool :=
  cellHasTok tok (row.getD 1 "")

/-- What a section becomes on the page: one banner line, or a header
plus data rows. -/
inductive Rendered where
  | banner (msg : String)
  | table (hdr : List String) (rows : List Row)
deriving DecidableEq

/-! ## Embedding of `src/backup-report.py` (namespace `BR`)

External AWS calls are parameters: a paginatable listing is a function
from an optional continuation token to one page, and every fallible call
is `Except String` (a `botocore`/`ValueError` failure carries a message). -/

namespace BR

/-- One page of a paginatable AWS listing response. -/
structure Page (α : Type) where
  items : List α
  nextToken : Option Nat
deriving DecidableEq

/-- An RDS DB cluster as enumerated (identifier plus its tag list). -/
structure Cluster where
  id : String
  tags : List (String × String)
deriving DecidableEq

/-- A DB cluster snapshot. -/
structure Snap where
  id : String
  createTime : Nat
deriving DecidableEq

/-- An EC2 instance record (identifier plus tags). -/
structure InstanceRec where
  instanceId : String
  tags : List (String × String)
deriving DecidableEq

/-- A machine image; its creation date is the raw provider string. -/
structure Ami where
  id : String
  creationDate : String
deriving DecidableEq

/-- A backup vault. -/
structure Vault where
  name : String
deriving DecidableEq

/-- An EFS file system. -/
structure FileSystem where
  id : String
deriving DecidableEq

/-- A recovery point found in a vault. -/
structure RecPoint where
  arn : String
  creationDate : Nat
deriving DecidableEq

/-- The body of the per-cluster loop of `get_rds_backups`: snapshots are
looked up, the five most recent kept, and a `ClientError` becomes a
single `"Error: …"` row for that cluster only. -/
def rdsRowsFor (snapLookup : String → Except String (List Snap))
    (cid : String) : List Row :=
  match snapLookup cid with
  | .error e => [[cid, "Error: " ++ e]]
  | .ok snaps =>
    let recent := top5 natLeB (fun s => s.createTime) snaps
    if recent.isEmpty then [[cid, "No backups configured"]]
    else recent.map (fun s => [s.id, formatTimeMicros s.createTime])

/-- `rds.describe_db_clusters().get("DBClusters", [])` — a single call,
no continuation token is ever passed; a `ClientError` here propagates. -/
def enumClusters (call : Option Nat → Except String (Page Cluster)) :
    Except String (List Cluster) :=
  match call none with
  | .error e => .error e
  | .ok p => .ok p.items

/-- `get_rds_backups`. -/
def getRdsRows (call : Option Nat → Except String (Page Cluster))
    (snapLookup : String → Except String (List Snap)) :
    Except String (List Row) :=
  match enumClusters call with
  | .error e => .error e
  | .ok cs => .ok (cs.flatMap (fun c => rdsRowsFor snapLookup c.id))

/-- `EXCLUDE_TAGS = ["autoscaling", "karpenter"]`. -/
def excludeTokens : List String := ["autoscaling", "karpenter"]

/-- `has_excluded_tags`: some tag whose lower-cased key or value contains
some exclusion token. -/
def hasExcludedTags (tags : List (String × String)) : Bool :=
  tags.any (fun t =>
    excludeTokens.any (fun ex => pyIn ex (lowerStr t.1) || pyIn ex (lowerStr t.2)))

/-- `ec2.describe_instances()["Reservations"]` — one unpaginated call;
each page item is one reservation, itself a list of instances. -/
def enumInstances
    (call : Option Nat → Except String (Page (List InstanceRec))) :
    Except String (List InstanceRec) :=
  match call none with
  | .error e => .error e
  | .ok p => .ok (p.items.flatMap (fun r => r))

/-- The instance-collection loop: keep, in order, the identifiers of the
instances whose tags are not excluded. -/
def filteredInstanceIds (insts : List InstanceRec) : List String :=
  (insts.filter (fun i => ! hasExcludedTags i.tags)).map
    (fun i => i.instanceId)

def parsePair (a : Ami) : Option (Ami × Nat) :=
  (parseTs a.creationDate).map (fun t => (a, t))

/-- Parse every AMI's creation date (as the cutoff comprehension does);
any `ValueError` aborts the whole computation. -/
def parseAll : List Ami → Option (List (Ami × Nat))
  | [] => some []
  | a :: rest =>
    match parsePair a, parseAll rest with
    | some p, some ps => some (p :: ps)
    | _, _ => none

/-- The compute-kind NotCovered sentinel label. -/
def ec2Sentinel : String := "No AMIs / DLM backups configured"

/-- The body of the per-instance loop of `get_ec2_backups`: keep AMIs at
or after the cutoff, sort descending by the raw creation-date string,
truncate to five; no artifact left means the sentinel row.  There is no
`try`/`except` here, so a lookup or parse failure propagates. -/
def ec2RowsFor (cutoff : Nat)
    (amiLookup : String → Except String (List Ami)) (inst : String) :
    Except String (List Row) :=
  match amiLookup inst with
  | .error e => .error e
  | .ok amis =>
    match parseAll amis with
    | none => .error "time data does not match format"
    | some pairs =>
      let recent := top5 strLeB (fun p => p.1.creationDate)
        (pairs.filter (fun p => decide (cutoff ≤ p.2)))
      if recent.isEmpty then .ok [[inst, ec2Sentinel, "-"]]
      else
        .ok (recent.map
          (fun p => [inst ++ " (AMI)", p.1.id, formatTimeStr p.1.creationDate]))

/-- The instance loop of `get_ec2_backups`: each instance's rows in
order; a failure anywhere aborts the loop and discards everything. -/
def ec2RowsAll (cutoff : Nat)
    (amiLookup : String → Except String (List Ami)) :
    List String → Except String (List Row)
  | [] => .ok []
  | i :: rest =>
    match ec2RowsFor cutoff amiLookup i with
    | .error e => .error e
    | .ok rows =>
      match ec2RowsAll cutoff amiLookup rest with
      | .error e => .error e
      | .ok restRows => .ok (rows ++ restRows)

/-- `get_ec2_backups`. -/
def getEc2Rows (call : Option Nat → Except String (Page (List InstanceRec)))
    (amiLookup : String → Except String (List Ami)) (cutoff : Nat) :
    Except String (List Row) :=
  match enumInstances call with
  | .error e => .error e
  | .ok insts => ec2RowsAll cutoff amiLookup (filteredInstanceIds insts)

/-- The vault loop of `get_efs_backups`: every vault is queried for the
file system's ARN; a `ClientError` for one vault contributes nothing
(`continue`) and the recovery points of all vaults are accumulated into
one list. -/
def backupsForFs (rpLookup : String → String → Except String (List RecPoint))
    (vaults : List Vault) (arn : String) : List RecPoint :=
  vaults.flatMap (fun v =>
    match rpLookup v.name arn with
    | .ok rps => rps
    | .error _ => [])

def fsArnOf (region account fsId : String) : String :=
  "arn:aws:elasticfilesystem:" ++ region ++ ":" ++ account ++
    ":file-system/" ++ fsId

/-- `b["RecoveryPointArn"].split(":")[-1]`. -/
def lastColonSeg (s : String) : String := (s.splitOn ":").getLastD ""

/-- The per-file-system body of `get_efs_backups`. -/
def efsRowsFor (rpLookup : String → String → Except String (List RecPoint))
    (vaults : List Vault) (region account fsId : String) : List Row :=
  let backups := backupsForFs rpLookup vaults (fsArnOf region account fsId)
  if backups.isEmpty then [[fsId, "No backups configured", "-"]]
  else
    (top5 natLeB (fun b => b.creationDate) backups).map
      (fun b => [fsId, lastColonSeg b.arn, formatTimeMicros b.creationDate])

/-- `get_efs_backups`: vault and file-system listings may fail (and then
propagate); per-vault failures are swallowed inside. -/
def getEfsRows (vaultsE : Except String (List Vault))
    (fsE : Except String (List FileSystem))
    (rpLookup : String → String → Except String (List RecPoint))
    (region account : String) : Except String (List Row) :=
  match vaultsE with
  | .error e => .error e
  | .ok vaults =>
    match fsE with
    | .error e => .error e
    | .ok fss =>
      .ok (fss.flatMap (fun fs => efsRowsFor rpLookup vaults region account fs.id))

def rdsHdr : List String := ["Snapshot ID", "Created On"]

def ec2Hdr : List String := ["Instance / AMI", "Backup ID", "Created On"]

def efsHdr : List String := ["EFS ID", "Backup ID", "Created On"]

/-- The RDS/EC2 section decision in `generate_pdf`:
`if not data or all(tok in str(row[1]).lower() for row in data)` renders
the banner, otherwise the table of all rows. -/
def sectionOf (tok bannerMsg : String) (hdr : List String)
    (data : List Row) : Rendered :=
  if data.isEmpty || data.all (rowTokAt1 tok) then .banner bannerMsg
  else .table hdr data

/-- The EFS section decision in `generate_pdf` (separate empty-case
banner text, then the same `"no backup"` collapse test). -/
def efsSection (data : List Row) : Rendered :=
  if data.isEmpty then
    .banner "No EFS file systems detected or no backups found."
  else if data.all (rowTokAt1 "no backup") then
    .banner "No backups configured for EFS."
  else .table efsHdr data

/-- All external inputs `generate_pdf` consumes, plus the scan instant. -/
structure Env where
  rdsCall : Option Nat → Except String (Page Cluster)
  snapLookup : String → Except String (List Snap)
  ec2Call : Option Nat → Except String (Page (List InstanceRec))
  amiLookup : String → Except String (List Ami)
  vaultsE : Except String (List Vault)
  fsE : Except String (List FileSystem)
  rpLookup : String → String → Except String (List RecPoint)
  region : String
  account : String
  now : Nat

/-- `generate_pdf`: the three sections in order; any uncaught failure
(enumeration, EC2 lookup, EC2 parse) aborts the whole report. -/
def generatePdf (env : Env) : Except String (List Rendered) :=
  match getRdsRows env.rdsCall env.snapLookup with
  | .error e => .error e
  | .ok rdsData =>
    match getEc2Rows env.ec2Call env.amiLookup (env.now - sixWeeksMicros) with
    | .error e => .error e
    | .ok ec2Data =>
      match getEfsRows env.vaultsE env.fsE env.rpLookup env.region env.account with
      | .error e => .error e
      | .ok efsData =>
        .ok [sectionOf "no backup" "No backups configured for RDS." rdsHdr rdsData,
          sectionOf "no backup" "No backups configured for EC2." ec2Hdr ec2Data,
          efsSection efsData]

/-- Modelled from the spec: "pagination (if the provider paginates) must
be exhausted before filtering begins" — the exhausting enumeration that
is absent from the scripts, following every continuation token (with
fuel, since a physical provider hands out finitely many pages). -/
def enumAllPages {α : Type} : Nat → (Option Nat → Except String (Page α)) →
    Option Nat → Except String (List α)
  | 0, _, _ => .ok []
  | fuel + 1, call, tok =>
    match call tok with
    | .error e => .error e
    | .ok p =>
      match p.nextToken with
      | none => .ok p.items
      | some t =>
        match enumAllPages fuel call (some t) with
        | .error e => .error e
        | .ok rest => .ok (p.items ++ rest)

end BR

/-! ## The banner-collapse predicates of `src/backup_report.py`

The underscore variant differs from `backup-report.py` only in the
per-kind collapse tokens of `generate_pdf`: RDS keeps `"no backup"`, EC2
tests `"no ami"`, EFS tests `"no backups"` (lines 282, 293, 309), while
the highlight test in `BorderPDF.table` is `"no backup"` over all cells
in both variants. -/

namespace BRU

def rdsCollapseAll (data : List Row) : Bool := data.all (rowTokAt1 "no backup")

def ec2CollapseAll (data : List Row) : Bool := data.all (rowTokAt1 "no ami")

def efsCollapseAll (data : List Row) : Bool := data.all (rowTokAt1 "no backups")

end BRU

/-! ## Claim C1 -/

/-- Inputs on which every EC2 coverage result is NotCovered: one
instance, no excluded tags, zero machine images; RDS and EFS are empty. -/
def c1Env : BR.Env where
  rdsCall := fun _ => .ok ⟨[], none⟩
  snapLookup := fun _ => .ok []
  ec2Call := fun _ => .ok ⟨[[⟨"i-1", []⟩]], none⟩
  amiLookup := fun _ => .ok []
  vaultsE := .ok []
  fsE := .ok []
  rpLookup := fun _ _ => .ok []
  region := "us-east-1"
  account := "123456789012"
  now := sixWeeksMicros

/-- C1: the banner-iff-all-NotCovered invariant fails in
`backup-report.py` (and `backup_new.py`): with a single EC2 instance
whose discovery succeeds with zero images — so every CoverageResult of
the compute Section is NotCovered — `generate_pdf` renders the EC2
Section as a table holding the sentinel row, not as a banner, because
the collapse test looks for `"no backup"` in `row[1]` while the compute
sentinel `"No AMIs / DLM backups configured"` does not contain it. -/
theorem C1_ec2_all_notCovered_renders_table :
    BR.generatePdf c1Env =
      .ok [Rendered.banner "No backups configured for RDS.",
        Rendered.table BR.ec2Hdr [["i-1", BR.ec2Sentinel, "-"]],
        Rendered.banner "No EFS file systems detected or no backups found."] ∧
    pyIn "no backup" (lowerStr BR.ec2Sentinel) = false := by
  exact ⟨rfl, by decide⟩

/-! ## Claim C2 -/

/-- C2: in `backup_report.py` the compute NotCovered sentinel does not
contain `"no backup"`, and on the sentinel row the two consumers of the
sentinel disagree: the `BorderPDF.table` highlight test (`"no backup"`
in any cell) is false while the EC2 banner-collapse test (`"no ami"` in
`row[1]`) is true. -/
theorem C2_sentinel_consumers_disagree :
    pyIn "no backup" (lowerStr BR.ec2Sentinel) = false ∧
    highlightRow ["i-1", BR.ec2Sentinel, "-"] = false ∧
    BRU.ec2CollapseAll [["i-1", BR.ec2Sentinel, "-"]] = true := by
  exact ⟨by decide, by decide, by decide⟩

/-! ## Claim C3 -/

/-- Six qualifying machine images; the first two have raw creation-date
strings with fractional-second fields of different widths that parse to
instants one microsecond apart. -/
def c3Amis : List BR.Ami :=
  [⟨"ami-1", "2025-09-01T00:00:01.500001Z"⟩,
   ⟨"ami-2", "2025-09-01T00:00:01.5Z"⟩,
   ⟨"ami-3", "2025-08-31T00:00:04.000000Z"⟩,
   ⟨"ami-4", "2025-08-31T00:00:03.000000Z"⟩,
   ⟨"ami-5", "2025-08-31T00:00:02.000000Z"⟩,
   ⟨"ami-6", "2025-08-31T00:00:01.000000Z"⟩]

/-- C3 counterexample: a compute resource with six qualifying artifacts
(cutoff 0, every date parses) whose selected list is NOT in descending
`createdAt` order: the sort key is the raw string, `"…01.5Z"` sorts
above `"…01.500001Z"`, yet its parsed instant is one microsecond
smaller — the first selected artifact is strictly older than the
second. -/
theorem C3_cex_string_sort_breaks_createdAt_order :
    c3Amis.length = 6 ∧
    BR.ec2RowsFor 0 (fun _ => .ok c3Amis) "i-1" = .ok
      [["i-1 (AMI)", "ami-2", "2025-09-01 00:00:01 UTC"],
       ["i-1 (AMI)", "ami-1", "2025-09-01 00:00:01 UTC"],
       ["i-1 (AMI)", "ami-3", "2025-08-31 00:00:04 UTC"],
       ["i-1 (AMI)", "ami-4", "2025-08-31 00:00:03 UTC"],
       ["i-1 (AMI)", "ami-5", "2025-08-31 00:00:02 UTC"]] ∧
    (parseTs "2025-09-01T00:00:01.5Z").getD 0 <
      (parseTs "2025-09-01T00:00:01.500001Z").getD 0 := by
  refine ⟨rfl, rfl, by decide⟩

/-! ## Claim C4 -/

def c4Cluster : BR.Cluster := ⟨"db-1", [("managed-by", "karpenter")]⟩

/-- C4 counterexample: a database cluster whose tag value contains the
configured exclusion token `"karpenter"` is not excluded — the RDS
pipeline never consults tags and still produces its snapshot row. -/
theorem C4_cex_tagged_rds_cluster_not_excluded :
    BR.hasExcludedTags c4Cluster.tags = true ∧
    BR.getRdsRows (fun _ => .ok ⟨[c4Cluster], none⟩)
        (fun _ => .ok [⟨"snap-1", 1700000000000000⟩]) =
      .ok [["snap-1", formatTimeMicros 1700000000000000]] := by
  exact ⟨by decide, rfl⟩

/-! ## Claim C6 -/

/-- C6 counterexample: in `get_ec2_backups` there is no per-resource
handler, so a lookup failure for the first instance makes the whole
compute computation fail — no `"Error: …"` row is produced and the
sibling instance `i-2` yields no rows either. -/
theorem C6_cex_ec2_lookup_failure_aborts_kind :
    BR.ec2RowsAll 0
        (fun inst => if inst = "i-1" then .error "AccessDenied" else .ok [])
        ["i-1", "i-2"] = .error "AccessDenied" := by
  rfl

/-! ## Claim C7 -/

/-- Inputs where the RDS inventory fetch fails while the compute and
file-system kinds have healthy data. -/
def c7Env : BR.Env where
  rdsCall := fun _ => .error "AccessDenied"
  snapLookup := fun _ => .ok []
  ec2Call := fun _ => .ok ⟨[[⟨"i-1", []⟩]], none⟩
  amiLookup := fun _ => .ok []
  vaultsE := .ok [⟨"vault-a"⟩]
  fsE := .ok [⟨"fs-1"⟩]
  rpLookup := fun _ _ => .ok [⟨"arn:aws:backup:us-east-1:1:recovery-point:rp-1", 100⟩]
  region := "us-east-1"
  account := "123456789012"
  now := sixWeeksMicros

/-- C7 counterexample: an enumeration failure for the RDS kind makes the
whole `generate_pdf` run fail: no Section is produced at all — the
compute and file-system kinds, whose data is healthy, are not rendered,
contradicting "other kinds are still produced unaffected". -/
theorem C7_cex_enumeration_failure_aborts_report :
    BR.generatePdf c7Env = .error "AccessDenied" := by
  rfl

/-! ## Claim C9 -/

/-- A paginating cluster inventory: page one holds `db-1` and a
continuation token, page two holds `db-2`. -/
def c9Call : Option Nat → Except String (BR.Page BR.Cluster) := fun tok =>
  match tok with
  | none => .ok ⟨[⟨"db-1", []⟩], some 1⟩
  | some _ => .ok ⟨[⟨"db-2", []⟩], none⟩

/-- C9 counterexample: the enumeration never follows the continuation
token — against a two-page inventory the RDS pipeline produces rows for
`db-1` only, while exhausting pagination (the spec-modelled
`enumAllPages`) also finds `db-2`; the resource on the second page is
omitted from the Section. -/
theorem C9_cex_second_page_omitted :
    BR.getRdsRows c9Call (fun _ => .ok []) =
      .ok [["db-1", "No backups configured"]] ∧
    BR.enumAllPages 2 c9Call none = .ok [⟨"db-1", []⟩, ⟨"db-2", []⟩] := by
  exact ⟨rfl, rfl⟩

/-- C3 amended: the selection is the stable descending sort by the
kind's own sort key followed by truncation to five.  For the
timestamp-keyed kinds (database, file system) and for the string-keyed
compute kind alike: with more than five candidates exactly five are
selected, the selection is in descending key order, and candidates with
equal keys keep the provider's original relative order (for every key
value, filtering the sorted list by that value returns the same sublist
as filtering the input).  Descending order of `createdAt` itself holds
for the compute kind only when the raw strings order like their parsed
instants (see the C10 refinement). -/
theorem C3_amended_top5_stable_descending {α α2 : Type} (k : α → Nat)
    (l : List α) (k2 : α2 → String) (l2 : List α2)
    (h5 : 5 < l.length) (h5b : 5 < l2.length) :
    (top5 natLeB k l).length = 5 ∧
    List.Pairwise (fun a b => k b ≤ k a) (top5 natLeB k l) ∧
    (∀ v : Nat, (sortDesc natLeB k l).filter (fun z => decide (k z = v)) =
      l.filter (fun z => decide (k z = v))) ∧
    (top5 strLeB k2 l2).length = 5 ∧
    List.Pairwise (fun a b => strLeB (k2 b) (k2 a) = true) (top5 strLeB k2 l2) ∧
    (∀ v : String, (sortDesc strLeB k2 l2).filter (fun z => decide (k2 z = v)) =
      l2.filter (fun z => decide (k2 z = v))) := by
  refine ⟨?_, ?_, ?_, ?_, ?_, ?_⟩
  · simp [top5, List.length_take, length_sortDesc]
    omega
  · have hp := @pairwise_sortDesc _ _ natLeB k natLeB_total natLeB_trans l
    have hq := List.Pairwise.sublist (List.take_sublist 5 (sortDesc natLeB k l)) hp
    exact hq.imp (fun h => by simpa [natLeB] using h)
  · intro v
    exact filter_sortDesc natLeB_refl l v
  · simp [top5, List.length_take, length_sortDesc]
    omega
  · have hp := @pairwise_sortDesc _ _ strLeB k2
      (fun a b => strLeB_total a b) (fun a b c => strLeB_trans a b c) l2
    exact List.Pairwise.sublist (List.take_sublist 5 (sortDesc strLeB k2 l2)) hp
  · intro v
    exact filter_sortDesc (fun s => strLeB_refl s) l2 v

theorem C3_amended_witness :
    (top5 natLeB (fun n : Nat => n) [6, 1, 4, 1, 5, 9, 2]).length = 5 ∧
    (top5 strLeB (fun t : String => t) ["f", "a", "d", "a", "e", "z", "b"]).length = 5 ∧
    (sortDesc natLeB (fun n : Nat => n) [6, 1, 4, 1, 5, 9, 2]).filter
      (fun z => decide (z = 1)) =
      [6, 1, 4, 1, 5, 9, 2].filter (fun z => decide (z = 1)) := by
  have h := C3_amended_top5_stable_descending (fun n : Nat => n)
    [6, 1, 4, 1, 5, 9, 2] (fun t : String => t)
    ["f", "a", "d", "a", "e", "z", "b"] (by decide) (by decide)
  exact ⟨h.1, h.2.2.2.1, h.2.2.1 1⟩

/-- C4 amended: only the compute kind applies the tag-exclusion filter.
For compute instances the filter is exactly the claimed predicate — the
instance is dropped before discovery iff some tag key or value
case-insensitively contains some configured exclusion token (and an
untagged instance is never excluded), while every instance that survives
the filter contributes at least one row.  Database clusters and file
systems are never excluded, whatever their tags (the counterexample). -/
theorem C4_amended_only_compute_filters (tags : List (String × String))
    (i : BR.InstanceRec) (insts : List BR.InstanceRec) (cutoff : Nat)
    (amiLookup : String → Except String (List BR.Ami)) (inst : String)
    (rows : List Row)
    (hok : BR.ec2RowsFor cutoff amiLookup inst = .ok rows) :
    (BR.hasExcludedTags tags = true ↔
      ∃ kv ∈ tags, ∃ tok ∈ BR.excludeTokens,
        ciContains kv.1 tok = true ∨ ciContains kv.2 tok = true) ∧
    BR.hasExcludedTags [] = false ∧
    BR.filteredInstanceIds (i :: insts) =
      (if BR.hasExcludedTags i.tags then BR.filteredInstanceIds insts
       else i.instanceId :: BR.filteredInstanceIds insts) ∧
    1 ≤ rows.length := by
  have hlow : ∀ tok ∈ BR.excludeTokens, lowerStr tok = tok := by
    intro tok htok
    simp only [BR.excludeTokens, List.mem_cons, List.not_mem_nil, or_false] at htok
    rcases htok with rfl | rfl
    · decide
    · decide
  refine ⟨?_, rfl, ?_, ?_⟩
  · simp only [BR.hasExcludedTags, List.any_eq_true, Bool.or_eq_true]
    constructor
    · rintro ⟨kv, hkv, tok, htok, hc⟩
      refine ⟨kv, hkv, tok, htok, ?_⟩
      simpa only [ciContains, hlow tok htok] using hc
    · rintro ⟨kv, hkv, tok, htok, hc⟩
      refine ⟨kv, hkv, tok, htok, ?_⟩
      simpa only [ciContains, hlow tok htok] using hc
  · cases h : BR.hasExcludedTags i.tags <;>
      simp [BR.filteredInstanceIds, List.filter_cons, h]
  · rcases hami : amiLookup inst with e | amis <;>
      simp only [BR.ec2RowsFor, hami] at hok
    · cases hok
    · rcases hpar : BR.parseAll amis with _ | pairs <;>
        simp only [hpar] at hok
      · cases hok
      · split at hok
        · rw [Except.ok.injEq] at hok
          subst hok
          simp
        · rename_i hcond
          rw [Except.ok.injEq] at hok
          subst hok
          rcases htop : top5 strLeB (fun p => p.1.creationDate)
            (pairs.filter (fun p => decide (cutoff ≤ p.2))) with _ | ⟨q, qs⟩
          · rw [htop] at hcond
            simp at hcond
          · rw [htop]
            simp

theorem C4_amended_witness :
    (BR.hasExcludedTags [("managed-by", "Karpenter")] = true ↔
      ∃ kv ∈ [("managed-by", "Karpenter")], ∃ tok ∈ BR.excludeTokens,
        ciContains kv.1 tok = true ∨ ciContains kv.2 tok = true) ∧
    BR.hasExcludedTags [] = false ∧
    BR.filteredInstanceIds
        ((⟨"i-9", [("managed-by", "Karpenter")]⟩ : BR.InstanceRec) :: []) =
      (if BR.hasExcludedTags [("managed-by", "Karpenter")] then
        BR.filteredInstanceIds [] else "i-9" :: BR.filteredInstanceIds []) ∧
    1 ≤ ([["i-1", BR.ec2Sentinel, "-"]] : List Row).length :=
  C4_amended_only_compute_filters [("managed-by", "Karpenter")]
    ⟨"i-9", [("managed-by", "Karpenter")]⟩ [] 0 (fun _ => .ok []) "i-1"
    [["i-1", BR.ec2Sentinel, "-"]] rfl

/-- C5: the compute recency window.  The cutoff is the scan instant
minus 42 × 24 h and the comparison is inclusive: an image parsed at
exactly the cutoff instant is a candidate and yields a covered row, and
when every image parses strictly before the cutoff — however many there
are — the instance gets exactly the NotCovered sentinel row. -/
theorem C5_six_week_cutoff_boundary (now : Nat) (hn : sixWeeksMicros ≤ now)
    (amiLookup : String → Except String (List BR.Ami)) (inst : String)
    (a : BR.Ami) (hone : amiLookup inst = .ok [a])
    (ht : parseTs a.creationDate = some (now - sixWeeksMicros))
    (amiLookup2 : String → Except String (List BR.Ami)) (inst2 : String)
    (amis : List BR.Ami) (pairs : List (BR.Ami × Nat))
    (hall : amiLookup2 inst2 = .ok amis)
    (hp : BR.parseAll amis = some pairs)
    (hold : ∀ p ∈ pairs, p.2 < now - sixWeeksMicros) :
    BR.ec2RowsFor (now - sixWeeksMicros) amiLookup inst =
      .ok [[inst ++ " (AMI)", a.id, formatTimeStr a.creationDate]] ∧
    BR.ec2RowsFor (now - sixWeeksMicros) amiLookup2 inst2 =
      .ok [[inst2, BR.ec2Sentinel, "-"]] := by
  constructor
  · have hpa : BR.parseAll [a] = some [(a, now - sixWeeksMicros)] := by
      simp [BR.parseAll, BR.parsePair, ht]
    have hfil1 : ([(a, now - sixWeeksMicros)] : List (BR.Ami × Nat)).filter
        (fun p => decide (now - sixWeeksMicros ≤ p.2)) =
        [(a, now - sixWeeksMicros)] := by
      simp only [List.filter_cons, List.filter_nil, decide_eq_true_eq,
        Nat.le_refl, if_true]
    simp only [BR.ec2RowsFor, hone, hpa, hfil1]
    rfl
  · have hfil : pairs.filter (fun p => decide (now - sixWeeksMicros ≤ p.2)) = [] := by
      rw [List.filter_eq_nil_iff]
      intro p hp2
      have hlt := hold p hp2
      simp only [decide_eq_true_eq]
      omega
    simp only [BR.ec2RowsFor, hall, hp, hfil]
    rfl

def c5T : Nat := (parseTs "2025-09-01T00:00:00.000000Z").getD 0

def c5Now : Nat := c5T + sixWeeksMicros

theorem C5_witness :
    BR.ec2RowsFor (c5Now - sixWeeksMicros)
        (fun _ => .ok [⟨"ami-1", "2025-09-01T00:00:00.000000Z"⟩]) "i-1" =
      .ok [["i-1" ++ " (AMI)", "ami-1",
        formatTimeStr "2025-09-01T00:00:00.000000Z"]] ∧
    BR.ec2RowsFor (c5Now - sixWeeksMicros)
        (fun _ => .ok [⟨"ami-2", "2025-01-01T00:00:00.000000Z"⟩]) "i-2" =
      .ok [["i-2", BR.ec2Sentinel, "-"]] :=
  C5_six_week_cutoff_boundary c5Now (by decide)
    (fun _ => .ok [⟨"ami-1", "2025-09-01T00:00:00.000000Z"⟩]) "i-1"
    ⟨"ami-1", "2025-09-01T00:00:00.000000Z"⟩ rfl (by decide)
    (fun _ => .ok [⟨"ami-2", "2025-01-01T00:00:00.000000Z"⟩]) "i-2"
    [⟨"ami-2", "2025-01-01T00:00:00.000000Z"⟩]
    ((BR.parseAll [⟨"ami-2", "2025-01-01T00:00:00.000000Z"⟩]).getD [])
    rfl (by decide) (by decide)

/-- C6 amended: only the database strategy recovers a per-resource
lookup failure locally: the failing cluster yields exactly the single
row `["…", "Error: <message>"]` in place, and the rows of the clusters
before and after it are unchanged.  The compute strategy has no
per-resource handler: a lookup failure for one instance makes the whole
compute computation fail, producing no error row and no rows for the
sibling instances (the counterexample). -/
theorem C6_amended_rds_local_ec2_propagates
    (snapLookup : String → Except String (List BR.Snap))
    (l1 l2 : List BR.Cluster) (c : BR.Cluster) (msg : String)
    (hrds : snapLookup c.id = .error msg)
    (amiLookup : String → Except String (List BR.Ami)) (cutoff : Nat)
    (i : String) (rest : List String) (e : String)
    (hec2 : amiLookup i = .error e) :
    (l1 ++ c :: l2).flatMap (fun cl => BR.rdsRowsFor snapLookup cl.id) =
      l1.flatMap (fun cl => BR.rdsRowsFor snapLookup cl.id) ++
        [c.id, "Error: " ++ msg] ::
          l2.flatMap (fun cl => BR.rdsRowsFor snapLookup cl.id) ∧
    BR.ec2RowsAll cutoff amiLookup (i :: rest) = .error e := by
  constructor
  · simp [List.flatMap_append, List.flatMap_cons, BR.rdsRowsFor, hrds]
  · have hi : BR.ec2RowsFor cutoff amiLookup i = .error e := by
      simp only [BR.ec2RowsFor, hec2]
    simp only [BR.ec2RowsAll, hi]

theorem C6_amended_witness :
    (([] : List BR.Cluster) ++ (⟨"db-1", []⟩ : BR.Cluster) :: []).flatMap
        (fun cl => BR.rdsRowsFor (fun _ => .error "denied") cl.id) =
      ([] : List BR.Cluster).flatMap
          (fun cl => BR.rdsRowsFor (fun _ => .error "denied") cl.id) ++
        ["db-1", "Error: " ++ "denied"] ::
          ([] : List BR.Cluster).flatMap
            (fun cl => BR.rdsRowsFor (fun _ => .error "denied") cl.id) ∧
    BR.ec2RowsAll 0 (fun _ => .error "boom") ("i-1" :: ["i-2"]) =
      .error "boom" :=
  C6_amended_rds_local_ec2_propagates (fun _ => .error "denied") [] []
    ⟨"db-1", []⟩ "denied" rfl (fun _ => .error "boom") 0 "i-1" ["i-2"]
    "boom" rfl

/-- C7 amended: an enumeration failure is not contained to its own kind.
If the RDS inventory call fails the whole report fails with that error
(no Section of any kind is emitted), and even when the two earlier kinds
succeed, a failing file-system (vault) enumeration still fails the whole
report rather than only its own Section. -/
theorem C7_amended_enumeration_failure_is_global (env : BR.Env)
    (e : String) (r1 r2 : List Row) :
    (env.rdsCall none = .error e → BR.generatePdf env = .error e) ∧
    (BR.getRdsRows env.rdsCall env.snapLookup = .ok r1 →
      BR.getEc2Rows env.ec2Call env.amiLookup (env.now - sixWeeksMicros) = .ok r2 →
      env.vaultsE = .error e →
      BR.generatePdf env = .error e) := by
  constructor
  · intro h
    simp only [BR.generatePdf, BR.getRdsRows, BR.enumClusters, h]
  · intro h1 h2 hv
    simp only [BR.generatePdf, h1, h2, BR.getEfsRows, hv]

/-- Inputs where RDS and EC2 enumerate fine but the vault listing fails. -/
def c7bEnv : BR.Env where
  rdsCall := fun _ => .ok ⟨[], none⟩
  snapLookup := fun _ => .ok []
  ec2Call := fun _ => .ok ⟨[], none⟩
  amiLookup := fun _ => .ok []
  vaultsE := .error "VaultDown"
  fsE := .ok [⟨"fs-1"⟩]
  rpLookup := fun _ _ => .ok []
  region := "us-east-1"
  account := "123456789012"
  now := sixWeeksMicros

theorem C7_amended_witness :
    BR.generatePdf c7Env = .error "AccessDenied" ∧
    BR.generatePdf c7bEnv = .error "VaultDown" :=
  ⟨(C7_amended_enumeration_failure_is_global c7Env "AccessDenied" [] []).1 rfl,
   (C7_amended_enumeration_failure_is_global c7bEnv "VaultDown" [] []).2 rfl rfl rfl⟩

/-- C8: file-system discovery scans every vault and merges.  A failing
vault in the middle of the vault list contributes nothing while the
vaults before and after it contribute exactly what they would
otherwise; every recovery point returned by any succeeding vault is in
the merged candidate list; and when the merged list is non-empty the
rows are the top-5-by-creation-time selection applied to that single
merged list, so artifacts from different vaults compete in one
descending ranking. -/
theorem C8_vault_failures_isolated_and_merged
    (rpLookup : String → String → Except String (List BR.RecPoint))
    (v : BR.Vault) (l1 l2 : List BR.Vault) (arn : String) (e : String)
    (hbad : rpLookup v.name arn = .error e)
    (vaults : List BR.Vault) (w : BR.Vault) (hw : w ∈ vaults)
    (rps : List BR.RecPoint) (hok : rpLookup w.name arn = .ok rps)
    (region account fsId : String)
    (hne : BR.backupsForFs rpLookup vaults (BR.fsArnOf region account fsId) ≠ []) :
    BR.backupsForFs rpLookup (l1 ++ v :: l2) arn =
      BR.backupsForFs rpLookup l1 arn ++ BR.backupsForFs rpLookup l2 arn ∧
    (∀ rp ∈ rps, rp ∈ BR.backupsForFs rpLookup vaults arn) ∧
    BR.efsRowsFor rpLookup vaults region account fsId =
      (top5 natLeB (fun b => b.creationDate)
        (BR.backupsForFs rpLookup vaults (BR.fsArnOf region account fsId))).map
        (fun b => [fsId, BR.lastColonSeg b.arn, formatTimeMicros b.creationDate]) := by
  refine ⟨?_, ?_, ?_⟩
  · simp [BR.backupsForFs, List.flatMap_append, List.flatMap_cons, hbad]
  · intro rp hrp
    simp only [BR.backupsForFs, List.mem_flatMap]
    exact ⟨w, hw, by simp [hok, hrp]⟩
  · simp only [BR.efsRowsFor]
    rw [if_neg]
    simp [List.isEmpty_iff, hne]

def c8Lookup : String → String → Except String (List BR.RecPoint) :=
  fun vn _ =>
    if vn = "bad" then .error "down"
    else if vn = "vault-a" then .ok [⟨"a:rp-1", 100⟩]
    else .ok [⟨"a:rp-2", 200⟩]

theorem C8_witness :
    BR.backupsForFs c8Lookup ([⟨"vault-a"⟩] ++ ⟨"bad"⟩ :: [⟨"vault-b"⟩]) "arn-x" =
      BR.backupsForFs c8Lookup [⟨"vault-a"⟩] "arn-x" ++
        BR.backupsForFs c8Lookup [⟨"vault-b"⟩] "arn-x" ∧
    (⟨"a:rp-1", 100⟩ : BR.RecPoint) ∈
      BR.backupsForFs c8Lookup [⟨"vault-a"⟩, ⟨"bad"⟩, ⟨"vault-b"⟩] "arn-x" ∧
    BR.efsRowsFor c8Lookup [⟨"vault-a"⟩, ⟨"bad"⟩, ⟨"vault-b"⟩]
        "us-east-1" "123456789012" "fs-1" =
      (top5 natLeB (fun b => b.creationDate)
        (BR.backupsForFs c8Lookup [⟨"vault-a"⟩, ⟨"bad"⟩, ⟨"vault-b"⟩]
          (BR.fsArnOf "us-east-1" "123456789012" "fs-1"))).map
        (fun b => ["fs-1", BR.lastColonSeg b.arn, formatTimeMicros b.creationDate]) := by
  have h := C8_vault_failures_isolated_and_merged c8Lookup ⟨"bad"⟩
    [⟨"vault-a"⟩] [⟨"vault-b"⟩] "arn-x" "down" rfl
    [⟨"vault-a"⟩, ⟨"bad"⟩, ⟨"vault-b"⟩] ⟨"vault-a"⟩ (by decide)
    [⟨"a:rp-1", 100⟩] rfl "us-east-1" "123456789012" "fs-1" (by decide)
  exact ⟨h.1, h.2.1 ⟨"a:rp-1", 100⟩ (by decide), h.2.2⟩

/-- C9 amended: enumeration consumes a single unpaginated inventory
call: whenever the provider's first page is `page`, the Section's rows
are generated from exactly `page.items` — the continuation token is
never followed, so a resource on a later page contributes nothing (the
counterexample shows one being dropped). -/
theorem C9_amended_first_page_only
    (call : Option Nat → Except String (BR.Page BR.Cluster))
    (snapLookup : String → Except String (List BR.Snap))
    (page : BR.Page BR.Cluster) (h : call none = .ok page) :
    BR.getRdsRows call snapLookup =
      .ok (page.items.flatMap (fun c => BR.rdsRowsFor snapLookup c.id)) ∧
    BR.enumClusters call = .ok page.items := by
  constructor
  · simp only [BR.getRdsRows, BR.enumClusters, h]
  · simp only [BR.enumClusters, h]

/-! ## Claim C10: the compute sort key

`get_ec2_backups` sorts by the raw creation-date string while the
recency cutoff uses the parsed instant.  The refinement theorem needs
that, on canonically formatted strings of a common fractional width,
code-point order coincides with parsed-instant order.  That rests on the
calendar arithmetic below: `daysFromCivil` is strictly monotone in the
lexicographic field order, over the field ranges `datetime` validates. -/

theorem yearStart_step (a : Nat) : yearStart a + 365 ≤ yearStart (a + 1) := by
  unfold yearStart
  omega

theorem yearStart_mono {a b : Nat} (h : a ≤ b) : yearStart a ≤ yearStart b := by
  induction b, h using Nat.le_induction with
  | base => exact Nat.le_refl _
  | succ n hn ih =>
    have := yearStart_step n
    omega

theorem yearStart_gap {a b : Nat} (h : a < b) : yearStart a + 365 ≤ yearStart b := by
  have h1 := yearStart_step a
  have h2 := yearStart_mono (show a + 1 ≤ b by omega)
  omega

theorem yearStart_step_leap (a : Nat) (h : leapYear (a + 1)) :
    yearStart a + 366 ≤ yearStart (a + 1) := by
  unfold yearStart leapYear at *
  omega

theorem doy_lt_within (y mo1 d1 mo2 d2 : Nat) (h1 : 1 ≤ mo1) (hlt : mo1 < mo2)
    (hb : mo2 ≤ 12) (hd1 : 1 ≤ d1) (hd1b : d1 ≤ daysInMonth y mo1)
    (hd2 : 1 ≤ d2) (hcase : 3 ≤ mo1 ∨ mo2 ≤ 2) :
    monthDoy mo1 + (d1 - 1) < monthDoy mo2 + (d2 - 1) := by
  have h12 : mo1 ≤ 11 := by omega
  interval_cases mo1 <;> interval_cases mo2 <;>
    (try simp_all [monthDoy, daysInMonth, leapYear]) <;> omega

theorem doy_le_364 (y mo d : Nat) (h1 : 1 ≤ mo) (h2 : mo ≤ 12) (hd : 1 ≤ d)
    (hdb : d ≤ daysInMonth y mo) (hno : ¬(mo = 2 ∧ d = 29)) :
    monthDoy mo + (d - 1) ≤ 364 := by
  interval_cases mo <;>
    (try simp_all [monthDoy, daysInMonth, leapYear]) <;>
    (try split_ifs at hdb) <;> omega

theorem doy_ge_306 (mo d : Nat) (h1 : 1 ≤ mo) (h2 : mo ≤ 2) (hd : 1 ≤ d) :
    306 ≤ monthDoy mo + (d - 1) := by
  interval_cases mo <;> simp_all [monthDoy] <;> omega

theorem doy_le_305 (y mo d : Nat) (h1 : 3 ≤ mo) (h2 : mo ≤ 12) (hd : 1 ≤ d)
    (hdb : d ≤ daysInMonth y mo) :
    monthDoy mo + (d - 1) ≤ 305 := by
  interval_cases mo <;>
    (try simp_all [monthDoy, daysInMonth, leapYear]) <;> omega

theorem feb29_leap (y d : Nat) (hdb : d ≤ daysInMonth y 2) (h29 : d = 29) :
    leapYear y := by
  by_contra hnl
  simp [daysInMonth, hnl, h29] at hdb

theorem daysFromCivil_lt (y1 mo1 d1 y2 mo2 d2 : Nat)
    (hy1 : 1 ≤ y1) (hy2 : 1 ≤ y2)
    (hmo1 : 1 ≤ mo1) (hmo1b : mo1 ≤ 12) (hd1 : 1 ≤ d1)
    (hd1b : d1 ≤ daysInMonth y1 mo1)
    (hmo2 : 1 ≤ mo2) (hmo2b : mo2 ≤ 12) (hd2 : 1 ≤ d2)
    (hd2b : d2 ≤ daysInMonth y2 mo2)
    (hlex : y1 < y2 ∨ (y1 = y2 ∧ (mo1 < mo2 ∨ (mo1 = mo2 ∧ d1 < d2)))) :
    daysFromCivil y1 mo1 d1 < daysFromCivil y2 mo2 d2 := by
  unfold daysFromCivil
  rcases hlex with hy | ⟨rfl, hmo | ⟨rfl, hd⟩⟩
  · -- strictly later year
    have hys2ge : y1 ≤ (if mo2 ≤ 2 then y2 - 1 else y2) := by split <;> omega
    have hmono := yearStart_mono hys2ge
    by_cases hm1 : mo1 ≤ 2
    · rw [if_pos hm1]
      by_cases hfeb : mo1 = 2 ∧ d1 = 29
      · obtain ⟨hfm, hfd⟩ := hfeb
        subst hfm
        subst hfd
        have hleap : leapYear y1 := feb29_leap y1 29 hd1b rfl
        have hstep : yearStart (y1 - 1) + 366 ≤ yearStart y1 := by
          have he : y1 - 1 + 1 = y1 := by omega
          have := yearStart_step_leap (y1 - 1) (by rwa [he])
          rwa [he] at this
        have hdm : monthDoy 2 = 337 := by decide
        omega
      · have hdoy1 := doy_le_364 y1 mo1 d1 hmo1 hmo1b hd1 hd1b hfeb
        have hgap : yearStart (y1 - 1) + 365 ≤ yearStart y1 :=
          yearStart_gap (by omega)
        omega
    · rw [if_neg hm1]
      have hdoy1 := doy_le_305 y1 mo1 d1 (by omega) hmo1b hd1 hd1b
      by_cases hm2 : mo2 ≤ 2
      · rw [if_pos hm2]
        by_cases hsame : y1 = y2 - 1
        · have hdoy2 := doy_ge_306 mo2 d2 hmo2 hm2 hd2
          have : yearStart y1 ≤ yearStart (y2 - 1) := yearStart_mono (by omega)
          omega
        · have hgap := yearStart_gap (show y1 < y2 - 1 by omega)
          omega
      · rw [if_neg hm2]
        have hgap := yearStart_gap hy
        omega
  · -- same year, strictly later month
    by_cases hm2 : mo2 ≤ 2
    · have hm1 : mo1 ≤ 2 := by omega
      rw [if_pos hm1, if_pos hm2]
      have := doy_lt_within y1 mo1 d1 mo2 d2 hmo1 hmo hmo2b hd1 hd1b hd2
        (Or.inr hm2)
      omega
    · by_cases hm1 : mo1 ≤ 2
      · rw [if_pos hm1, if_neg hm2]
        by_cases hfeb : mo1 = 2 ∧ d1 = 29
        · obtain ⟨hfm, hfd⟩ := hfeb
          subst hfm
          subst hfd
          have hleap : leapYear y1 := feb29_leap y1 29 hd1b rfl
          have hstep : yearStart (y1 - 1) + 366 ≤ yearStart y1 := by
            have he : y1 - 1 + 1 = y1 := by omega
            have := yearStart_step_leap (y1 - 1) (by rwa [he])
            rwa [he] at this
          have hdm : monthDoy 2 = 337 := by decide
          omega
        · have hdoy1 := doy_le_364 y1 mo1 d1 hmo1 hmo1b hd1 hd1b hfeb
          have hstep := yearStart_step (y1 - 1)
          have he : y1 - 1 + 1 = y1 := by omega
          rw [he] at hstep
          omega
      · rw [if_neg hm1, if_neg hm2]
        have := doy_lt_within y1 mo1 d1 mo2 d2 hmo1 hmo hmo2b hd1 hd1b hd2
          (Or.inl (by omega))
        omega
  · -- same date except a strictly later day
    omega

/-- Python `datetime` comparison order: lexicographic on the fields. -/
def dfLexLt (f g : DF) : Prop :=
  f.y < g.y ∨ (f.y = g.y ∧ (f.mo < g.mo ∨ (f.mo = g.mo ∧ (f.d < g.d ∨
    (f.d = g.d ∧ (f.h < g.h ∨ (f.h = g.h ∧ (f.mi < g.mi ∨
      (f.mi = g.mi ∧ (f.s < g.s ∨ (f.s = g.s ∧ f.us < g.us)))))))))))

theorem dfLex_trichotomy (f g : DF) : dfLexLt f g ∨ f = g ∨ dfLexLt g f := by
  rcases f with ⟨y1, mo1, d1, h1, mi1, s1, us1⟩
  rcases g with ⟨y2, mo2, d2, h2, mi2, s2, us2⟩
  simp only [dfLexLt, DF.mk.injEq]
  omega

theorem toMicros_lt_of_lex {f g : DF} (hf : dfValid f = true)
    (hg : dfValid g = true) (h : dfLexLt f g) : toMicros f < toMicros g := by
  simp only [dfValid, decide_eq_true_eq] at hf hg
  obtain ⟨hfy, hfy2, hfmo, hfmo2, hfd, hfd2, hfh, hfmi, hfs, hfus⟩ := hf
  obtain ⟨hgy, hgy2, hgmo, hgmo2, hgd, hgd2, hgh, hgmi, hgs, hgus⟩ := hg
  unfold toMicros microsPerDay
  rcases h with hy | ⟨hy, hmo | ⟨hmo, hd | ⟨hd, htime⟩⟩⟩
  · have hdays := daysFromCivil_lt f.y f.mo f.d g.y g.mo g.d hfy hgy hfmo
      hfmo2 hfd hfd2 hgmo hgmo2 hgd hgd2 (Or.inl hy)
    omega
  · have hdays := daysFromCivil_lt f.y f.mo f.d g.y g.mo g.d hfy hgy hfmo
      hfmo2 hfd hfd2 hgmo hgmo2 hgd hgd2 (Or.inr ⟨hy, Or.inl hmo⟩)
    omega
  · have hdays := daysFromCivil_lt f.y f.mo f.d g.y g.mo g.d hfy hgy hfmo
      hfmo2 hfd hfd2 hgmo hgmo2 hgd hgd2 (Or.inr ⟨hy, Or.inr ⟨hmo, hd⟩⟩)
    omega
  · rw [hy, hmo, hd]
    omega

theorem toMicros_le_iff {f g : DF} (hf : dfValid f = true)
    (hg : dfValid g = true) :
    toMicros f ≤ toMicros g ↔ (dfLexLt f g ∨ f = g) := by
  constructor
  · intro hle
    rcases dfLex_trichotomy f g with h | h | h
    · exact Or.inl h
    · exact Or.inr h
    · have := toMicros_lt_of_lex hg hf h
      omega
  · rintro (h | rfl)
    · exact Nat.le_of_lt (toMicros_lt_of_lex hf hg h)
    · exact Nat.le_refl _

theorem dChar_toNat {n : Nat} (h : n ≤ 9) : (dChar n).toNat = 48 + n := by
  interval_cases n <;> decide

theorem isDigitC_dChar {n : Nat} (h : n ≤ 9) : isDigitC (dChar n) = true := by
  interval_cases n <;> decide

theorem digToNat_dChar {n : Nat} (h : n ≤ 9) : digToNat (dChar n) = n := by
  interval_cases n <;> decide

theorem clLe_cons_same (c : Char) (x y : List Char) :
    clLe (c :: x) (c :: y) = clLe x y := by
  simp [clLe]

theorem clLe_padC_append (w : Nat) : ∀ (a b : Nat) (x y : List Char),
    a < 10 ^ w → b < 10 ^ w →
    clLe (padC w a ++ x) (padC w b ++ y) =
      (if a < b then true else if b < a then false else clLe x y) := by
  induction w with
  | zero =>
    intro a b x y ha hb
    have ha0 : a = 0 := by simpa using ha
    have hb0 : b = 0 := by simpa using hb
    subst ha0
    subst hb0
    simp [padC]
  | succ w ih =>
    intro a b x y ha hb
    have hM : 0 < 10 ^ w := pow_pos (by omega) w
    have hqa : a / 10 ^ w < 10 := by
      rw [Nat.div_lt_iff_lt_mul hM]
      calc a < 10 ^ (w + 1) := ha
        _ = 10 * 10 ^ w := by rw [pow_succ]; ring
    have hqb : b / 10 ^ w < 10 := by
      rw [Nat.div_lt_iff_lt_mul hM]
      calc b < 10 ^ (w + 1) := hb
        _ = 10 * 10 ^ w := by rw [pow_succ]; ring
    have hq9a : a / 10 ^ w ≤ 9 := by omega
    have hq9b : b / 10 ^ w ≤ 9 := by omega
    have hra : a % 10 ^ w < 10 ^ w := Nat.mod_lt _ hM
    have hrb : b % 10 ^ w < 10 ^ w := Nat.mod_lt _ hM
    have ea := Nat.div_add_mod a (10 ^ w)
    have eb := Nat.div_add_mod b (10 ^ w)
    simp only [padC, List.cons_append, clLe, dChar_toNat hq9a, dChar_toNat hq9b,
      List.append_eq]
    rw [ih (a % 10 ^ w) (b % 10 ^ w) x y hra hrb]
    rcases Nat.lt_trichotomy (a / 10 ^ w) (b / 10 ^ w) with hq | hq | hq
    · have hab : a < b := by
        calc a < 10 ^ w * (a / 10 ^ w) + 10 ^ w := by omega
          _ = 10 ^ w * (a / 10 ^ w + 1) := by ring
          _ ≤ 10 ^ w * (b / 10 ^ w) := Nat.mul_le_mul_left _ (by omega)
          _ ≤ b := by omega
      rw [if_pos (show 48 + a / 10 ^ w < 48 + b / 10 ^ w by omega), if_pos hab]
    · rw [hq] at ea
      have hiff1 : a < b ↔ a % 10 ^ w < b % 10 ^ w := by omega
      have hiff2 : b < a ↔ b % 10 ^ w < a % 10 ^ w := by omega
      rw [if_neg (show ¬(48 + a / 10 ^ w < 48 + b / 10 ^ w) by omega),
        if_neg (show ¬(48 + b / 10 ^ w < 48 + a / 10 ^ w) by omega)]
      by_cases h1 : a % 10 ^ w < b % 10 ^ w
      · rw [if_pos h1, if_pos (hiff1.mpr h1)]
      · rw [if_neg h1, if_neg (fun h => h1 (hiff1.mp h))]
        by_cases h2 : b % 10 ^ w < a % 10 ^ w
        · rw [if_pos h2, if_pos (hiff2.mpr h2)]
        · rw [if_neg h2, if_neg (fun h => h2 (hiff2.mp h))]
    · have hba : b < a := by
        calc b < 10 ^ w * (b / 10 ^ w) + 10 ^ w := by omega
          _ = 10 ^ w * (b / 10 ^ w + 1) := by ring
          _ ≤ 10 ^ w * (a / 10 ^ w) := Nat.mul_le_mul_left _ (by omega)
          _ ≤ a := by omega
      rw [if_neg (show ¬(48 + a / 10 ^ w < 48 + b / 10 ^ w) by omega),
        if_pos (show 48 + b / 10 ^ w < 48 + a / 10 ^ w by omega),
        if_neg (show ¬ a < b by omega), if_pos hba]

theorem strLeB_mk (l1 l2 : List Char) :
    strLeB (String.mk l1) (String.mk l2) = clLe l1 l2 := rfl

/-- Code-point order on two canonical fixed-format strings of the same
fractional width agrees exactly with the order of the parsed instants. -/
theorem canon_clLe_iff (w : Nat) (hw1 : 1 ≤ w) (hw6 : w ≤ 6) (f g : DF)
    (hf : dfValid f = true) (hg : dfValid g = true)
    (hfu : f.us % 10 ^ (6 - w) = 0) (hgu : g.us % 10 ^ (6 - w) = 0) :
    (strLeB (renderCanon w f) (renderCanon w g) = true) ↔
      toMicros f ≤ toMicros g := by
  have hfb := hf
  have hgb := hg
  simp only [dfValid, decide_eq_true_eq] at hfb hgb
  obtain ⟨hfy1, hfy2, hfmo1, hfmo2, hfd1, hfd2, hfh, hfmi, hfs, hfus⟩ := hfb
  obtain ⟨hgy1, hgy2, hgmo1, hgmo2, hgd1, hgd2, hgh, hgmi, hgs, hgus⟩ := hgb
  have hp4 : (10 : Nat) ^ 4 = 10000 := by norm_num
  have hp2 : (10 : Nat) ^ 2 = 100 := by norm_num
  have hp6 : (10 : Nat) ^ 6 = 1000000 := by norm_num
  have hyf : f.y < 10 ^ 4 := by omega
  have hyg : g.y < 10 ^ 4 := by omega
  have hmof : f.mo < 10 ^ 2 := by omega
  have hmog : g.mo < 10 ^ 2 := by omega
  have hdf : f.d < 10 ^ 2 := by
    have := hfd2
    have hdim : daysInMonth f.y f.mo ≤ 31 := by
      unfold daysInMonth
      split_ifs <;> omega
    omega
  have hdg : g.d < 10 ^ 2 := by
    have hdim : daysInMonth g.y g.mo ≤ 31 := by
      unfold daysInMonth
      split_ifs <;> omega
    omega
  have hhf : f.h < 10 ^ 2 := by omega
  have hhg : g.h < 10 ^ 2 := by omega
  have hmif : f.mi < 10 ^ 2 := by omega
  have hmig : g.mi < 10 ^ 2 := by omega
  have hsf : f.s < 10 ^ 2 := by omega
  have hsg : g.s < 10 ^ 2 := by omega
  have hK : 0 < 10 ^ (6 - w) := pow_pos (by omega) _
  have hpow : 10 ^ w * 10 ^ (6 - w) = 10 ^ 6 := by
    rw [← pow_add]
    congr 1
    omega
  have hqf : f.us / 10 ^ (6 - w) < 10 ^ w := by
    rw [Nat.div_lt_iff_lt_mul hK, hpow]
    omega
  have hqg : g.us / 10 ^ (6 - w) < 10 ^ w := by
    rw [Nat.div_lt_iff_lt_mul hK, hpow]
    omega
  have husf : f.us / 10 ^ (6 - w) * 10 ^ (6 - w) = f.us :=
    Nat.div_mul_cancel (Nat.dvd_of_mod_eq_zero hfu)
  have husg : g.us / 10 ^ (6 - w) * 10 ^ (6 - w) = g.us :=
    Nat.div_mul_cancel (Nat.dvd_of_mod_eq_zero hgu)
  unfold renderCanon
  rw [strLeB_mk]
  rw [clLe_padC_append 4 f.y g.y _ _ hyf hyg]
  rcases Nat.lt_trichotomy f.y g.y with hY | hY | hY
  · rw [if_pos hY]
    exact iff_of_true rfl
      (Nat.le_of_lt (toMicros_lt_of_lex hf hg (Or.inl hY)))
  · rw [if_neg (by omega), if_neg (by omega), clLe_cons_same,
      clLe_padC_append 2 f.mo g.mo _ _ hmof hmog]
    rcases Nat.lt_trichotomy f.mo g.mo with hM | hM | hM
    · rw [if_pos hM]
      exact iff_of_true rfl (Nat.le_of_lt
        (toMicros_lt_of_lex hf hg (Or.inr ⟨hY, Or.inl hM⟩)))
    · rw [if_neg (by omega), if_neg (by omega), clLe_cons_same,
        clLe_padC_append 2 f.d g.d _ _ hdf hdg]
      rcases Nat.lt_trichotomy f.d g.d with hD | hD | hD
      · rw [if_pos hD]
        exact iff_of_true rfl (Nat.le_of_lt
          (toMicros_lt_of_lex hf hg (Or.inr ⟨hY, Or.inr ⟨hM, Or.inl hD⟩⟩)))
      · rw [if_neg (by omega), if_neg (by omega), clLe_cons_same,
          clLe_padC_append 2 f.h g.h _ _ hhf hhg]
        rcases Nat.lt_trichotomy f.h g.h with hH | hH | hH
        · rw [if_pos hH]
          exact iff_of_true rfl (Nat.le_of_lt (toMicros_lt_of_lex hf hg
            (Or.inr ⟨hY, Or.inr ⟨hM, Or.inr ⟨hD, Or.inl hH⟩⟩⟩)))
        · rw [if_neg (by omega), if_neg (by omega), clLe_cons_same,
            clLe_padC_append 2 f.mi g.mi _ _ hmif hmig]
          rcases Nat.lt_trichotomy f.mi g.mi with hMi | hMi | hMi
          · rw [if_pos hMi]
            exact iff_of_true rfl (Nat.le_of_lt (toMicros_lt_of_lex hf hg
              (Or.inr ⟨hY, Or.inr ⟨hM, Or.inr ⟨hD, Or.inr ⟨hH, Or.inl hMi⟩⟩⟩⟩)))
          · rw [if_neg (by omega), if_neg (by omega), clLe_cons_same,
              clLe_padC_append 2 f.s g.s _ _ hsf hsg]
            rcases Nat.lt_trichotomy f.s g.s with hS | hS | hS
            · rw [if_pos hS]
              exact iff_of_true rfl (Nat.le_of_lt (toMicros_lt_of_lex hf hg
                (Or.inr ⟨hY, Or.inr ⟨hM, Or.inr ⟨hD, Or.inr ⟨hH,
                  Or.inr ⟨hMi, Or.inl hS⟩⟩⟩⟩⟩)))
            · rw [if_neg (by omega), if_neg (by omega), clLe_cons_same,
                clLe_padC_append w (f.us / 10 ^ (6 - w)) (g.us / 10 ^ (6 - w))
                  _ _ hqf hqg]
              rcases Nat.lt_trichotomy (f.us / 10 ^ (6 - w))
                  (g.us / 10 ^ (6 - w)) with hU | hU | hU
              · rw [if_pos hU]
                have hlt : f.us < g.us := by
                  rw [← husf, ← husg]
                  exact (Nat.mul_lt_mul_right hK).mpr hU
                exact iff_of_true rfl (Nat.le_of_lt (toMicros_lt_of_lex hf hg
                  (Or.inr ⟨hY, Or.inr ⟨hM, Or.inr ⟨hD, Or.inr ⟨hH,
                    Or.inr ⟨hMi, Or.inr ⟨hS, hlt⟩⟩⟩⟩⟩⟩)))
              · rw [if_neg (by omega), if_neg (by omega)]
                have hUs : f.us = g.us := by
                  rw [← husf, ← husg, hU]
                have hmeq : toMicros f = toMicros g := by
                  unfold toMicros
                  rw [hY, hM, hD, hH, hMi, hS, hUs]
                exact iff_of_true rfl (Nat.le_of_eq hmeq)
              · rw [if_neg (by omega), if_pos hU]
                have hlt : g.us < f.us := by
                  rw [← husf, ← husg]
                  exact (Nat.mul_lt_mul_right hK).mpr hU
                refine iff_of_false (by simp) ?_
                have := toMicros_lt_of_lex hg hf
                  (Or.inr ⟨hY.symm, Or.inr ⟨hM.symm, Or.inr ⟨hD.symm,
                    Or.inr ⟨hH.symm, Or.inr ⟨hMi.symm,
                      Or.inr ⟨hS.symm, hlt⟩⟩⟩⟩⟩⟩)
                omega
            · rw [if_neg (by omega), if_pos hS]
              refine iff_of_false (by simp) ?_
              have := toMicros_lt_of_lex hg hf
                (Or.inr ⟨hY.symm, Or.inr ⟨hM.symm, Or.inr ⟨hD.symm,
                  Or.inr ⟨hH.symm, Or.inr ⟨hMi.symm, Or.inl hS⟩⟩⟩⟩⟩)
              omega
          · rw [if_neg (by omega), if_pos hMi]
            refine iff_of_false (by simp) ?_
            have := toMicros_lt_of_lex hg hf
              (Or.inr ⟨hY.symm, Or.inr ⟨hM.symm, Or.inr ⟨hD.symm,
                Or.inr ⟨hH.symm, Or.inl hMi⟩⟩⟩⟩)
            omega
        · rw [if_neg (by omega), if_pos hH]
          refine iff_of_false (by simp) ?_
          have := toMicros_lt_of_lex hg hf
            (Or.inr ⟨hY.symm, Or.inr ⟨hM.symm, Or.inr ⟨hD.symm, Or.inl hH⟩⟩⟩)
          omega
      · rw [if_neg (by omega), if_pos hD]
        refine iff_of_false (by simp) ?_
        have := toMicros_lt_of_lex hg hf
          (Or.inr ⟨hY.symm, Or.inr ⟨hM.symm, Or.inl hD⟩⟩)
        omega
    · rw [if_neg (by omega), if_pos hM]
      refine iff_of_false (by simp) ?_
      have := toMicros_lt_of_lex hg hf (Or.inr ⟨hY.symm, Or.inl hM⟩)
      omega
  · rw [if_neg (by omega), if_pos hY]
    refine iff_of_false (by simp) ?_
    have := toMicros_lt_of_lex hg hf (Or.inl hY)
    omega

theorem padC_length (w : Nat) : ∀ n, (padC w n).length = w := by
  induction w with
  | zero => intro n; rfl
  | succ w ih => intro n; simp [padC, ih]

theorem readDigits_padC (w : Nat) : ∀ (acc n : Nat) (rest : List Char),
    n < 10 ^ w →
    readDigits w acc (padC w n ++ rest) = some (acc * 10 ^ w + n, rest) := by
  induction w with
  | zero =>
    intro acc n rest h
    have h0 : n = 0 := by simpa using h
    subst h0
    simp [padC, readDigits]
  | succ w ih =>
    intro acc n rest h
    have hM : 0 < 10 ^ w := pow_pos (by omega) w
    have hq : n / 10 ^ w < 10 := by
      rw [Nat.div_lt_iff_lt_mul hM]
      calc n < 10 ^ (w + 1) := h
        _ = 10 * 10 ^ w := by rw [pow_succ]; ring
    have hq9 : n / 10 ^ w ≤ 9 := by omega
    simp only [padC, List.cons_append, readDigits, isDigitC_dChar hq9,
      if_true, digToNat_dChar hq9, List.append_eq]
    rw [ih (acc * 10 + n / 10 ^ w) (n % 10 ^ w) rest (Nat.mod_lt _ hM)]
    have e := Nat.div_add_mod n (10 ^ w)
    have harith : (acc * 10 + n / 10 ^ w) * 10 ^ w + n % 10 ^ w =
        acc * 10 ^ (w + 1) + n := by
      rw [pow_succ]
      calc (acc * 10 + n / 10 ^ w) * 10 ^ w + n % 10 ^ w
          = acc * (10 ^ w * 10) + (10 ^ w * (n / 10 ^ w) + n % 10 ^ w) := by
            ring
        _ = acc * (10 ^ w * 10) + n := by rw [e]
    rw [harith]

theorem expectC_cons (c : Char) (rest : List Char) :
    expectC c (c :: rest) = some rest := by
  simp [expectC]

theorem takeDigits_padZ (n : Nat) : ∀ (w q : Nat), q < 10 ^ w → w ≤ n →
    takeDigits n (padC w q ++ ['Z']) = (padC w q, ['Z']) := by
  induction n with
  | zero =>
    intro w q hq hw
    have h0 : w = 0 := by omega
    subst h0
    rfl
  | succ n ih =>
    intro w q hq hw
    cases w with
    | zero =>
      simp [padC, takeDigits, show isDigitC 'Z' = false from rfl]
    | succ w =>
      have hM : 0 < 10 ^ w := pow_pos (by omega) w
      have hq10 : q / 10 ^ w < 10 := by
        rw [Nat.div_lt_iff_lt_mul hM]
        calc q < 10 ^ (w + 1) := hq
          _ = 10 * 10 ^ w := by rw [pow_succ]; ring
      have hq9 : q / 10 ^ w ≤ 9 := by omega
      simp only [padC, List.cons_append, takeDigits, isDigitC_dChar hq9,
        if_true, List.append_eq]
      rw [ih w (q % 10 ^ w) (Nat.mod_lt _ hM) (by omega)]

theorem foldl_digits_padC (w : Nat) : ∀ (acc q : Nat), q < 10 ^ w →
    (padC w q).foldl (fun a c => a * 10 + digToNat c) acc =
      acc * 10 ^ w + q := by
  induction w with
  | zero =>
    intro acc q h
    have h0 : q = 0 := by simpa using h
    subst h0
    simp [padC]
  | succ w ih =>
    intro acc q h
    have hM : 0 < 10 ^ w := pow_pos (by omega) w
    have hq : q / 10 ^ w < 10 := by
      rw [Nat.div_lt_iff_lt_mul hM]
      calc q < 10 ^ (w + 1) := h
        _ = 10 * 10 ^ w := by rw [pow_succ]; ring
    have hq9 : q / 10 ^ w ≤ 9 := by omega
    simp only [padC, List.foldl_cons, digToNat_dChar hq9]
    rw [ih (acc * 10 + q / 10 ^ w) (q % 10 ^ w) (Nat.mod_lt _ hM)]
    have e := Nat.div_add_mod q (10 ^ w)
    rw [pow_succ]
    calc (acc * 10 + q / 10 ^ w) * 10 ^ w + q % 10 ^ w
        = acc * (10 ^ w * 10) + (10 ^ w * (q / 10 ^ w) + q % 10 ^ w) := by
          ring
      _ = acc * (10 ^ w * 10) + q := by rw [e]

theorem parseFracZ_padC (w q : Nat) (hw1 : 1 ≤ w) (hw6 : w ≤ 6)
    (hq : q < 10 ^ w) :
    parseFracZ (padC w q ++ ['Z']) = some (q * 10 ^ (6 - w)) := by
  unfold parseFracZ
  rw [takeDigits_padZ 6 w q hq hw6]
  simp only [padC_length]
  rw [if_neg (by omega)]
  have hd : digitsVal (padC w q) = q := by
    have := foldl_digits_padC w 0 q hq
    simpa [digitsVal] using this
  rw [hd]

theorem parseDF_renderCanon (w : Nat) (hw1 : 1 ≤ w) (hw6 : w ≤ 6) (f : DF)
    (hval : dfValid f = true) (hus : f.us % 10 ^ (6 - w) = 0) :
    parseDF (renderCanon w f) = some f := by
  have hb := hval
  simp only [dfValid, decide_eq_true_eq] at hb
  obtain ⟨h1, h2, h3, h4, h5, h6, h7, h8, h9, h10⟩ := hb
  have hp4 : (10 : Nat) ^ 4 = 10000 := by norm_num
  have hp2 : (10 : Nat) ^ 2 = 100 := by norm_num
  have hp6 : (10 : Nat) ^ 6 = 1000000 := by norm_num
  have hy4 : f.y < 10 ^ 4 := by omega
  have hmo : f.mo < 10 ^ 2 := by omega
  have hd : f.d < 10 ^ 2 := by
    have hdim : daysInMonth f.y f.mo ≤ 31 := by
      unfold daysInMonth
      split_ifs <;> omega
    omega
  have hh : f.h < 10 ^ 2 := by omega
  have hmi : f.mi < 10 ^ 2 := by omega
  have hs : f.s < 10 ^ 2 := by omega
  have hK : 0 < 10 ^ (6 - w) := pow_pos (by omega) _
  have hpow : 10 ^ w * 10 ^ (6 - w) = 10 ^ 6 := by
    rw [← pow_add]
    congr 1
    omega
  have hq : f.us / 10 ^ (6 - w) < 10 ^ w := by
    rw [Nat.div_lt_iff_lt_mul hK, hpow]
    omega
  have e1 := fun rest => readDigits_padC 4 0 f.y rest hy4
  have e2 := fun rest => readDigits_padC 2 0 f.mo rest hmo
  have e3 := fun rest => readDigits_padC 2 0 f.d rest hd
  have e4 := fun rest => readDigits_padC 2 0 f.h rest hh
  have e5 := fun rest => readDigits_padC 2 0 f.mi rest hmi
  have e6 := fun rest => readDigits_padC 2 0 f.s rest hs
  have efrac := parseFracZ_padC w (f.us / 10 ^ (6 - w)) hw1 hw6 hq
  have hus2 : f.us / 10 ^ (6 - w) * 10 ^ (6 - w) = f.us :=
    Nat.div_mul_cancel (Nat.dvd_of_mod_eq_zero hus)
  simp only [parseDF, renderCanon, parseDFL, e1, e2, e3, e4, e5, e6,
    expectC_cons, efrac, hus2, Nat.zero_mul, Nat.zero_add]
  have hfeta : (⟨f.y, f.mo, f.d, f.h, f.mi, f.s, f.us⟩ : DF) = f := rfl
  rw [hfeta, hval]
  simp

theorem parseTs_renderCanon (w : Nat) (hw1 : 1 ≤ w) (hw6 : w ≤ 6) (f : DF)
    (hval : dfValid f = true) (hus : f.us % 10 ^ (6 - w) = 0) :
    parseTs (renderCanon w f) = some (toMicros f) := by
  simp [parseTs, parseDF_renderCanon w hw1 hw6 f hval hus]

theorem bool_eq_of_iff {a b : Bool} (h : (a = true) ↔ (b = true)) : a = b := by
  cases a <;> cases b <;> simp_all

/-- Modelled from the spec: the compute-kind selection ordered by the
parsed `createdAt` timestamp (the claim's second embedding; the script
itself orders by the raw creation-date string). -/
def top5ByParsed (pairs : List (BR.Ami × Nat)) : List (BR.Ami × Nat) :=
  top5 natLeB (fun p => p.2) pairs

/-- C10: the compute top-N selection sorts by the raw creation-date
string, while the recency cutoff compares parsed instants.  When every
candidate's creation date is in the fixed `%Y-%m-%dT%H:%M:%S.%fZ` form
with a common fractional-second width `w` (and the pair carries the
instant the parser extracts from that string, as in `get_ec2_backups`),
the string-keyed selection equals the selection keyed by the parsed
timestamp. -/
theorem C10_string_selection_refines_parsed_selection (w : Nat)
    (hw1 : 1 ≤ w) (hw6 : w ≤ 6) (pairs : List (BR.Ami × Nat))
    (hall : ∀ p ∈ pairs, ∃ f : DF, dfValid f = true ∧
      f.us % 10 ^ (6 - w) = 0 ∧ p.1.creationDate = renderCanon w f ∧
      parseTs p.1.creationDate = some p.2) :
    top5 strLeB (fun p : BR.Ami × Nat => p.1.creationDate) pairs =
      top5ByParsed pairs := by
  unfold top5ByParsed top5
  rw [sortDesc_congr]
  intro a ha b hb
  obtain ⟨fa, hva, hua, hda, hpa⟩ := hall a ha
  obtain ⟨fb, hvb, hub, hdb, hpb⟩ := hall b hb
  have hta : a.2 = toMicros fa := by
    rw [hda, parseTs_renderCanon w hw1 hw6 fa hva hua] at hpa
    exact (Option.some.injEq _ _ ▸ hpa).symm
  have htb : b.2 = toMicros fb := by
    rw [hdb, parseTs_renderCanon w hw1 hw6 fb hvb hub] at hpb
    exact (Option.some.injEq _ _ ▸ hpb).symm
  rw [hda, hdb, hta, htb]
  apply bool_eq_of_iff
  rw [canon_clLe_iff w hw1 hw6 fa fb hva hvb hua hub]
  simp [natLeB]

def c10Pairs : List (BR.Ami × Nat) :=
  [(⟨"ami-1", "2025-09-01T00:00:02.000000Z"⟩,
     (parseTs "2025-09-01T00:00:02.000000Z").getD 0),
   (⟨"ami-2", "2025-09-01T00:00:03.000000Z"⟩,
     (parseTs "2025-09-01T00:00:03.000000Z").getD 0),
   (⟨"ami-3", "2024-12-31T23:59:59.123456Z"⟩,
     (parseTs "2024-12-31T23:59:59.123456Z").getD 0)]

theorem C10_witness :
    top5 strLeB (fun p : BR.Ami × Nat => p.1.creationDate) c10Pairs =
      top5ByParsed c10Pairs := by
  apply C10_string_selection_refines_parsed_selection 6 (by decide) (by decide)
  intro p hp
  simp only [c10Pairs, List.mem_cons, List.not_mem_nil, or_false] at hp
  rcases hp with rfl | rfl | rfl
  · exact ⟨⟨2025, 9, 1, 0, 0, 2, 0⟩, by decide, by decide, by decide, by decide⟩
  · exact ⟨⟨2025, 9, 1, 0, 0, 3, 0⟩, by decide, by decide, by decide, by decide⟩
  · exact ⟨⟨2024, 12, 31, 23, 59, 59, 123456⟩, by decide, by decide, by decide,
      by decide⟩

theorem C9_amended_witness :
    BR.getRdsRows c9Call (fun _ => .ok []) =
      .ok (([⟨"db-1", []⟩] : List BR.Cluster).flatMap
        (fun c => BR.rdsRowsFor (fun _ => .ok []) c.id)) ∧
    BR.enumClusters c9Call = .ok [⟨"db-1", []⟩] :=
  C9_amended_first_page_only c9Call (fun _ => .ok [])
    ⟨[⟨"db-1", []⟩], some 1⟩ rfl

end AuditAutomation
